import Mathlib

set_option maxRecDepth 8000

/-!
Verification of the goo-cli structured value decoder and commit-reveal vote
manager.  Go strings are modelled as `List Char`; the delimiter characters the
code inspects are all ASCII, so the character-level model agrees with Go's
byte-level loops on every input the functions are applied to.  Machine `int`
depth counters are modelled as `Int` (they may go negative), and `int64`
results as `Int` with explicit range handling where the source's scanner
checks range.
-/

/-- One step of the parenthesis depth count: `(` opens, `)` closes. -/
def deltaC (c : Char) : Int :=
  if c = '(' then 1 else if c = ')' then -1 else 0

/-- Total parenthesis balance of a character list. -/
def depthSum : List Char → Int
  | [] => 0
  | c :: rest => deltaC c + depthSum rest

/-- Core loop of the Go function `splitStructFields` (struct field splitter):
scan characters, track parenthesis depth, and close a field exactly when a
`)` returns the depth to zero and the next character is a comma (which is then
skipped).  `cur` accumulates the field being built.  The Go loop peeks one
character ahead at each `)`; here the boundary test is made one step later, at
the comma, via the flag `justClosed` recording that the previous character was
a `)` that brought the depth to zero — the two formulations take the same
branch on every input. -/
def splitAux : (cs : List Char) → Int → List Char → Bool → List (List Char)
  | [], _, cur, _ => if cur = [] then [] else [cur]
  | c :: rest, d, cur, justClosed =>
    if justClosed ∧ c = ',' then
      cur :: splitAux rest d [] false
    else if c = '(' then
      splitAux rest (d + 1) (cur ++ [c]) false
    else if c = ')' then
      splitAux rest (d - 1) (cur ++ [c]) (decide (d - 1 = 0))
    else
      splitAux rest d (cur ++ [c]) false
termination_by structural cs => cs

/-- Embedding of Go `splitStructFields(content string) []string`
(src/unnamed/part_002): splits a struct body into fields at top-level commas,
respecting nested parentheses. -/
def splitStructFields (content : List Char) : List (List Char) :=
  splitAux content 0 [] false

/-- Joining a field list with single commas (the inverse direction of the
splitter used to state losslessness). -/
def joinC : List (List Char) → List Char
  | [] => []
  | [f] => f
  | f :: g :: fs => f ++ ',' :: joinC (g :: fs)

/-- Checker for the splitter's break condition occurring inside a single
field: true iff somewhere a `)` brings the running depth (started at `d`) to
zero with a comma immediately after it. -/
def hasSplitPoint : List Char → Int → Bool
  | [], _ => false
  | c :: rest, d =>
    if c = '(' then hasSplitPoint rest (d + 1)
    else if c = ')' then
      if d - 1 = 0 ∧ rest.head? = some ',' then true
      else hasSplitPoint rest (d - 1)
    else hasSplitPoint rest d

/-- All commas of the list sit at parenthesis depth at least one when the
scan starts at depth `d`. -/
def commasNested : List Char → Int → Bool
  | [], _ => true
  | c :: rest, d =>
    if c = '(' then commasNested rest (d + 1)
    else if c = ')' then commasNested rest (d - 1)
    else if c = ',' then decide (1 ≤ d) && commasNested rest d
    else commasNested rest d

/-- Every prefix of the list keeps the running depth nonnegative when the
scan starts at depth `d`. -/
def allPrefixNonneg : List Char → Int → Bool
  | [], _ => true
  | c :: rest, d => decide (0 ≤ d + deltaC c) && allPrefixNonneg rest (d + deltaC c)

/-- A well-formed record field: nonempty, parenthesis balanced with depth
never dipping negative, ending in the `)` that closes its balance, and with
every comma nested inside at least one parenthesis. -/
def wfField (f : List Char) : Prop :=
  f ≠ [] ∧ f.getLast? = some ')' ∧ depthSum f = 0 ∧
    allPrefixNonneg f 0 = true ∧ commasNested f 0 = true

instance (f : List Char) : Decidable (wfField f) := by
  unfold wfField; infer_instance

example : splitStructFields "(\"a\" string),((1,2) pair)".toList =
    ["(\"a\" string)".toList, "((1,2) pair)".toList] := by decide

example : splitStructFields ")(".toList = [")(".toList] := by decide

lemma splitAux_flag_irrel (cs : List Char) (d : Int) (cur : List Char)
    (h : cs.head? ≠ some ',') : splitAux cs d cur true = splitAux cs d cur false := by
  cases cs with
  | nil => rfl
  | cons c rest =>
    have hc : ¬ c = ',' := fun hc => h (by simp [hc])
    simp [splitAux, hc]

lemma splitAux_ne_nil (cs : List Char) : ∀ (d : Int) (cur : List Char) (b : Bool),
    cur ≠ [] ∨ cs ≠ [] → splitAux cs d cur b ≠ [] := by
  induction cs with
  | nil =>
    intro d cur b h
    rcases h with h | h
    · simp [splitAux, h]
    · exact absurd rfl h
  | cons c rest ih =>
    intro d cur b _
    by_cases hb : b ∧ c = ','
    · simp [splitAux, hb]
    · by_cases hc1 : c = '('
      · simpa [splitAux, hb, hc1] using ih (d + 1) (cur ++ [c]) false (by simp)
      · by_cases hc2 : c = ')'
        · simpa [splitAux, hb, hc1, hc2] using
            ih (d - 1) (cur ++ [c]) (decide (d - 1 = 0)) (by simp)
        · simpa [splitAux, hb, hc1, hc2] using ih d (cur ++ [c]) false (by simp)

lemma joinC_cons_ne_nil (a : List Char) (l : List (List Char)) (h : l ≠ []) :
    joinC (a :: l) = a ++ ',' :: joinC l := by
  cases l with
  | nil => exact absurd rfl h
  | cons x xs => rfl

/-- The splitter is lossless on every input, balanced or not: joining its
output with commas restores the input, except that a trailing boundary comma
of the input is dropped. -/
lemma splitAux_join (cs : List Char) : ∀ (d : Int) (cur : List Char) (b : Bool),
    joinC (splitAux cs d cur b) = cur ++ cs ∨
      joinC (splitAux cs d cur b) ++ [','] = cur ++ cs := by
  induction cs with
  | nil =>
    intro d cur b
    by_cases hcur : cur = []
    · left; simp [splitAux, hcur, joinC]
    · left; simp [splitAux, hcur, joinC]
  | cons c rest ih =>
    intro d cur b
    by_cases hb : b ∧ c = ','
    · rw [show splitAux (c :: rest) d cur b = cur :: splitAux rest d [] false by
        simp [splitAux, hb]]
      by_cases hl : splitAux rest d [] false = []
      · have hrest : rest = [] := by
          by_contra hne
          exact splitAux_ne_nil rest d [] false (Or.inr hne) hl
        right
        subst hrest
        rw [hl, hb.2]
        rfl
      · rw [joinC_cons_ne_nil _ _ hl]
        rcases ih d [] false with h | h
        · left
          rw [List.nil_append] at h
          rw [h, hb.2]
        · right
          rw [List.nil_append] at h
          rw [hb.2]
          conv_rhs => rw [← h]
          simp only [List.append_assoc, List.cons_append]
    · have step : ∀ d2 b2, splitAux rest d2 (cur ++ [c]) b2 = splitAux (c :: rest) d cur b →
          joinC (splitAux (c :: rest) d cur b) = cur ++ c :: rest ∨
            joinC (splitAux (c :: rest) d cur b) ++ [','] = cur ++ c :: rest := by
        intro d2 b2 heq
        rcases ih d2 (cur ++ [c]) b2 with h | h
        · left; rw [heq] at h; simpa [List.append_assoc] using h
        · right; rw [heq] at h; simpa [List.append_assoc] using h
      by_cases hc1 : c = '('
      · exact step (d + 1) false (by simp [splitAux, hb, hc1])
      · by_cases hc2 : c = ')'
        · exact step (d - 1) (decide (d - 1 = 0)) (by simp [splitAux, hb, hc1, hc2])
        · exact step d false (by simp [splitAux, hb, hc1, hc2])

lemma commasNested_no_split (cs : List Char) : ∀ d : Int,
    commasNested cs d = true → hasSplitPoint cs d = false := by
  induction cs with
  | nil => intro d _; rfl
  | cons c rest ih =>
    intro d h
    by_cases hc1 : c = '('
    · rw [show commasNested (c :: rest) d = commasNested rest (d + 1) by
        simp [commasNested, hc1]] at h
      simp [hasSplitPoint, hc1, ih _ h]
    · by_cases hc2 : c = ')'
      · rw [show commasNested (c :: rest) d = commasNested rest (d - 1) by
          simp [commasNested, hc1, hc2]] at h
        have hrec := ih _ h
        by_cases hh : rest.head? = some ','
        · have hd : ¬ d - 1 = 0 := by
            intro hd
            cases rest with
            | nil => simp at hh
            | cons r rs =>
              have hr : r = ',' := by simpa using hh
              rw [hr] at h
              simp [commasNested, hd] at h
          simp [hasSplitPoint, hc1, hc2, hd, hrec]
        · simp [hasSplitPoint, hc1, hc2, hh, hrec]
      · by_cases hc3 : c = ','
        · rw [show commasNested (c :: rest) d =
              (decide (1 ≤ d) && commasNested rest d) by
            simp [commasNested, hc1, hc2, hc3]] at h
          simp only [Bool.and_eq_true] at h
          simp [hasSplitPoint, hc1, hc2, ih _ h.2]
        · rw [show commasNested (c :: rest) d = commasNested rest d by
            simp [commasNested, hc1, hc2, hc3]] at h
          simp [hasSplitPoint, hc1, hc2, ih _ h]

lemma exists_append_of_getLast? (l : List Char) (a : Char)
    (h : l.getLast? = some a) : ∃ t, l = t ++ [a] := by
  induction l with
  | nil => simp at h
  | cons c rest ih =>
    cases rest with
    | nil =>
      refine ⟨[], ?_⟩
      have hc : c = a := by simpa using h
      simp [hc]
    | cons r rs =>
      rw [List.getLast?_cons_cons] at h
      obtain ⟨t, ht⟩ := ih h
      exact ⟨c :: t, by rw [List.cons_append, ← ht]⟩

lemma splitAux_field_boundary (g : List Char) : ∀ (d : Int) (cur rest : List Char),
    hasSplitPoint (g ++ [')']) d = false →
    d + depthSum (g ++ [')']) = 0 →
    splitAux (g ++ [')'] ++ ',' :: rest) d cur false =
      (cur ++ (g ++ [')'])) :: splitAux rest 0 [] false := by
  induction g with
  | nil =>
    intro d cur rest hsp hdep
    have hd : d - 1 = 0 := by
      simp [depthSum, deltaC] at hdep
      omega
    simp only [List.nil_append, List.cons_append]
    rw [show splitAux (')' :: ',' :: rest) d cur false =
        splitAux (',' :: rest) (d - 1) (cur ++ [')']) (decide (d - 1 = 0)) by
      simp [splitAux]]
    rw [hd]
    simp [splitAux]
  | cons c g' ih =>
    intro d cur rest hsp hdep
    rw [List.cons_append] at hsp hdep ⊢
    rw [List.cons_append]
    by_cases hc1 : c = '('
    · have h1 : hasSplitPoint (g' ++ [')']) (d + 1) = false := by
        simpa [hasSplitPoint, hc1] using hsp
      have h2 : (d + 1) + depthSum (g' ++ [')']) = 0 := by
        rw [show depthSum (c :: (g' ++ [')'])) =
            deltaC c + depthSum (g' ++ [')']) from rfl, hc1] at hdep
        simp [deltaC] at hdep
        omega
      rw [show splitAux (c :: (g' ++ [')'] ++ ',' :: rest)) d cur false =
          splitAux (g' ++ [')'] ++ ',' :: rest) (d + 1) (cur ++ [c]) false by
        simp [splitAux, hc1]]
      rw [ih (d + 1) (cur ++ [c]) rest h1 h2]
      simp
    · by_cases hc2 : c = ')'
      · have h2 : (d - 1) + depthSum (g' ++ [')']) = 0 := by
          rw [show depthSum (c :: (g' ++ [')'])) =
              deltaC c + depthSum (g' ++ [')']) from rfl, hc2] at hdep
          simp [deltaC] at hdep
          omega
        have hstep : splitAux (c :: (g' ++ [')'] ++ ',' :: rest)) d cur false =
            splitAux (g' ++ [')'] ++ ',' :: rest) (d - 1) (cur ++ [c])
              (decide (d - 1 = 0)) := by
          simp [splitAux, hc2]
        rw [hstep]
        by_cases hd : d - 1 = 0
        · have h' : ¬ g'.head? = some ',' ∧ hasSplitPoint (g' ++ [')']) 0 = false := by
            simpa [hasSplitPoint, hc2, hd] using hsp
          have hh2 : (g' ++ [')'] ++ ',' :: rest).head? ≠ some ',' := by
            cases g' with
            | nil => simp
            | cons x xs =>
              simp only [List.cons_append, List.head?_cons]
              intro hx
              exact h'.1 (by simpa using hx)
          rw [show (decide (d - 1 = 0)) = true by simp [hd], hd]
          rw [splitAux_flag_irrel _ _ _ hh2]
          rw [ih 0 (cur ++ [c]) rest h'.2 (by omega)]
          simp
        · have h1 : hasSplitPoint (g' ++ [')']) (d - 1) = false := by
            simpa [hasSplitPoint, hc2, hd] using hsp
          rw [show (decide (d - 1 = 0)) = false by simp [hd]]
          rw [ih (d - 1) (cur ++ [c]) rest h1 h2]
          simp
      · have h1 : hasSplitPoint (g' ++ [')']) d = false := by
          simpa [hasSplitPoint, hc1, hc2] using hsp
        have h2 : d + depthSum (g' ++ [')']) = 0 := by
          rw [show depthSum (c :: (g' ++ [')'])) =
              deltaC c + depthSum (g' ++ [')']) from rfl] at hdep
          simp [deltaC, hc1, hc2] at hdep
          omega
        rw [show splitAux (c :: (g' ++ [')'] ++ ',' :: rest)) d cur false =
            splitAux (g' ++ [')'] ++ ',' :: rest) d (cur ++ [c]) false by
          simp [splitAux, hc1, hc2]]
        rw [ih d (cur ++ [c]) rest h1 h2]
        simp

lemma splitAux_no_split (f : List Char) : ∀ (d : Int) (cur : List Char),
    hasSplitPoint f d = false → cur ++ f ≠ [] → splitAux f d cur false = [cur ++ f] := by
  induction f with
  | nil =>
    intro d cur _ hne
    have hcur : cur ≠ [] := by simpa using hne
    simp [splitAux, hcur]
  | cons c f' ih =>
    intro d cur hsp _
    by_cases hc1 : c = '('
    · have h1 : hasSplitPoint f' (d + 1) = false := by
        simpa [hasSplitPoint, hc1] using hsp
      rw [show splitAux (c :: f') d cur false =
          splitAux f' (d + 1) (cur ++ [c]) false by simp [splitAux, hc1]]
      rw [ih (d + 1) (cur ++ [c]) h1 (by simp)]
      simp
    · by_cases hc2 : c = ')'
      · rw [show splitAux (c :: f') d cur false =
            splitAux f' (d - 1) (cur ++ [c]) (decide (d - 1 = 0)) by
          simp [splitAux, hc2]]
        by_cases hd : d - 1 = 0
        · have h' : ¬ f'.head? = some ',' ∧ hasSplitPoint f' 0 = false := by
            simpa [hasSplitPoint, hc2, hd] using hsp
          rw [show (decide (d - 1 = 0)) = true by simp [hd], hd]
          rw [splitAux_flag_irrel _ _ _ h'.1]
          rw [ih 0 (cur ++ [c]) h'.2 (by simp)]
          simp
        · have h1 : hasSplitPoint f' (d - 1) = false := by
            simpa [hasSplitPoint, hc2, hd] using hsp
          rw [show (decide (d - 1 = 0)) = false by simp [hd]]
          rw [ih (d - 1) (cur ++ [c]) h1 (by simp)]
          simp
      · have h1 : hasSplitPoint f' d = false := by
          simpa [hasSplitPoint, hc1, hc2] using hsp
        rw [show splitAux (c :: f') d cur false =
            splitAux f' d (cur ++ [c]) false by simp [splitAux, hc1, hc2]]
        rw [ih d (cur ++ [c]) h1 (by simp)]
        simp

lemma splitStructFields_joinC_aux (fs : List (List Char)) : fs ≠ [] →
    (∀ f ∈ fs, wfField f) → splitStructFields (joinC fs) = fs := by
  induction fs with
  | nil => intro h _; exact absurd rfl h
  | cons f fs' ih =>
    intro _ hwf
    obtain ⟨hfne, hlast, hdep, _, hcn⟩ := hwf f (by simp)
    have hnsp : hasSplitPoint f 0 = false := commasNested_no_split f 0 hcn
    cases fs' with
    | nil =>
      show splitAux (joinC [f]) 0 [] false = [f]
      rw [show joinC [f] = f from rfl]
      simpa using splitAux_no_split f 0 [] hnsp (by simpa using hfne)
    | cons g fs'' =>
      obtain ⟨t, ht⟩ := exists_append_of_getLast? f ')' hlast
      show splitAux (joinC (f :: g :: fs'')) 0 [] false = f :: g :: fs''
      rw [show joinC (f :: g :: fs'') = f ++ ',' :: joinC (g :: fs'') from rfl, ht]
      rw [show (t ++ [')']) ++ ',' :: joinC (g :: fs'') =
          t ++ [')'] ++ ',' :: joinC (g :: fs'') from by simp [List.append_assoc]]
      rw [splitAux_field_boundary t 0 [] (joinC (g :: fs''))
        (by rw [← ht]; exact hnsp) (by rw [← ht]; omega)]
      rw [show ([] : List Char) ++ (t ++ [')']) = f from by rw [ht]; simp]
      have hrec : splitStructFields (joinC (g :: fs'')) = g :: fs'' :=
        ih (by simp) (fun x hx => hwf x (by simp [hx]))
      rw [show splitAux (joinC (g :: fs'')) 0 [] false =
          splitStructFields (joinC (g :: fs'')) from rfl, hrec]
      rw [ht]

/-- Claim C1: for every record body consisting of N well-formed top-level
comma-separated fields (commas nested inside parentheses do not separate),
splitStructFields returns exactly those N field substrings, and joining them
with single commas reproduces the input body byte-for-byte. -/
theorem splitStructFields_wf_split_join (fs : List (List Char)) (hne : fs ≠ [])
    (hwf : ∀ f ∈ fs, wfField f) :
    splitStructFields (joinC fs) = fs ∧
      (splitStructFields (joinC fs)).length = fs.length ∧
      joinC (splitStructFields (joinC fs)) = joinC fs := by
  have h := splitStructFields_joinC_aux fs hne hwf
  exact ⟨h, by rw [h], by rw [h]⟩

/-- Concrete instance of claim C1 at a three-field body with a nested comma. -/
theorem splitStructFields_wf_split_join_witness :
    splitStructFields (joinC ["(\"0001\" string)".toList, "((1,2) pair)".toList,
        "(g1abcd address)".toList]) =
      ["(\"0001\" string)".toList, "((1,2) pair)".toList, "(g1abcd address)".toList] :=
  (splitStructFields_wf_split_join _ (by decide) (by decide)).1

/-- Claim C9: splitStructFields is a total function returning a field list on
every input, including malformed input with unbalanced parentheses (negative
depth is tolerated silently); moreover its output always carries the whole
input: joining the returned fields with commas restores the input exactly,
up to one trailing boundary comma of the input. -/
theorem splitStructFields_total (content : List Char) :
    joinC (splitStructFields content) = content ∨
      joinC (splitStructFields content) ++ [','] = content :=
  splitAux_join content 0 [] false

/-- Error outcomes of the query-output decoders (src/unnamed/part_002); each
constructor corresponds to one literal error return of the Go source, plus
sliceBounds for the slice expression that panics in Go when the last
closing brace of the line sits before the struct marker. -/
inductive ParseErr where
  | noDataField
  | noStructFound
  | structNotClosed
  | sliceBounds
  | fieldCountMismatch (expected got : Nat)
  | missingClosingBracket
deriving DecidableEq

/-- The marker of a result line: Go strings.HasPrefix(line, "data:"). -/
def dataTag : List Char := "data:".toList

/-- The opening record marker searched by the record decoders. -/
def structTag : List Char := "struct\x7b".toList

/-- The opening list marker searched by the collection extractors. -/
def sliceTag : List Char := "slice[".toList

/-- Go strings.Index: position of the first occurrence of pat in tgt. -/
def indexOfSub : (tgt : List Char) → List Char → Option Nat
  | [], pat => if pat = [] then some 0 else none
  | c :: t, pat =>
    if pat.isPrefixOf (c :: t) then some 0
    else (indexOfSub t pat).map (fun n => n + 1)

/-- Go strings.Index with a one-character pattern. -/
def indexOfChar : (cs : List Char) → Char → Option Nat
  | [], _ => none
  | c :: t, x => if c = x then some 0 else (indexOfChar t x).map (fun n => n + 1)

/-- Go strings.LastIndex with a one-character pattern. -/
def lastIndexOfChar : (cs : List Char) → Char → Option Nat
  | [], _ => none
  | c :: t, x =>
    match lastIndexOfChar t x with
    | some i => some (i + 1)
    | none => if c = x then some 0 else none

/-- Go strings.Contains. -/
def containsSub (tgt pat : List Char) : Bool := (indexOfSub tgt pat).isSome

/-- The ASCII fragment of Go unicode.IsSpace (the only whitespace occurring
in the decoder inputs). -/
def goIsSpace (c : Char) : Bool :=
  c = ' ' || c = '\t' || c = '\n' || c = '\x0b' || c = '\x0c' || c = '\r'

/-- Go strings.TrimSpace. -/
def trimSpace (cs : List Char) : List Char :=
  ((cs.dropWhile goIsSpace).reverse.dropWhile goIsSpace).reverse

/-- Go strings.TrimPrefix. -/
def trimPre (pre cs : List Char) : List Char :=
  if pre.isPrefixOf cs then cs.drop pre.length else cs

/-- Go strings.TrimSuffix. -/
def trimSuf (suf cs : List Char) : List Char :=
  if suf.isSuffixOf cs then cs.take (cs.length - suf.length) else cs

/-- Embedding of Go extractStringValue: the text between the first pair of
quotes, after stripping spaces and one layer of parentheses; empty if there
is no such pair. -/
def extractStringValue (field : List Char) : List Char :=
  let f := trimSuf [')'] (trimPre ['('] (trimSpace field))
  match indexOfChar f '"' with
  | none => []
  | some i =>
    match indexOfChar (f.drop (i + 1)) '"' with
    | none => []
    | some j => (f.drop (i + 1)).take j

/-- Embedding of Go extractAddressValue: quoted literal first, then the
empty-address marker, then a token starting at g1 cut at space/quote. -/
def extractAddressValue (field : List Char) : List Char :=
  let f := trimSuf [')'] (trimPre ['('] (trimSpace field))
  let quoted : Option (List Char) :=
    match indexOfChar f '"' with
    | none => none
    | some i =>
      match indexOfChar (f.drop (i + 1)) '"' with
      | none => none
      | some j => some ((f.drop (i + 1)).take j)
  match quoted with
  | some v => v
  | none =>
    if containsSub f ".uverse.address".toList && !(containsSub f "g1".toList) then []
    else
      match indexOfSub f "g1".toList with
      | none => []
      | some i =>
        let a0 := f.drop i
        let a1 := match indexOfChar a0 ' ' with
          | some k => a0.take k
          | none => a0
        let a2 := match indexOfChar a1 '"' with
          | some k => a1.take k
          | none => a1
        trimSpace a2

/-- Embedding of Go extractBoolValue: true iff the text true occurs. -/
def extractBoolValue (field : List Char) : Bool :=
  containsSub field "true".toList

/-- Embedding of Go extractTimeValue: opaque time refs print as ref(...). -/
def extractTimeValue (field : List Char) : List Char :=
  if containsSub field "ref(".toList then "N/A".toList else []

def isDigitChar (c : Char) : Bool := '0' ≤ c && c ≤ '9'

def isNumRunChar (c : Char) : Bool := isDigitChar c || c = '-'

def charDigit (c : Char) : Nat := c.toNat - '0'.toNat

def natOfDigits (ds : List Char) : Nat :=
  ds.foldl (fun a c => a * 10 + charDigit c) 0

def int64Max : Int := 9223372036854775807

def int64Min : Int := -9223372036854775808

/-- Model of fmt.Sscanf(numStr, "%d", &val) with val zero-initialised: the
scanner takes an optional leading minus sign and then the maximal digit run;
on a missing digit or an out-of-int64-range value it reports an error and
leaves val at 0; trailing unread characters are ignored. -/
def goSscanfInt (cs : List Char) : Int :=
  if cs.head? = some '-' then
    let ds := cs.tail.takeWhile isDigitChar
    if ds = [] then 0
    else if -(natOfDigits ds : Int) < int64Min then 0 else -(natOfDigits ds : Int)
  else
    let ds := cs.takeWhile isDigitChar
    if ds = [] then 0
    else if (natOfDigits ds : Int) > int64Max then 0 else (natOfDigits ds : Int)

/-- Embedding of Go extractInt64Value: trim spaces and a leading parenthesis,
accumulate the leading run of digit/minus characters, scan it as an int64. -/
def extractInt64Value (field : List Char) : Int :=
  let f := trimPre ['('] (trimSpace field)
  goSscanfInt (f.takeWhile isNumRunChar)

/-- Embedding of the Go struct DataRequest (14 decoded fields). -/
structure DataRequest where
  id : List Char
  creator : List Char
  timestamp : List Char
  ancillaryData : List Char
  yesNoQuestion : Bool
  proposedValue : Int
  proposer : List Char
  proposerBond : Int
  disputer : List Char
  disputerBond : Int
  resolutionTime : List Char
  winningValue : Int
  state : List Char
  deadline : List Char
deriving DecidableEq

/-- Embedding of the Go struct Dispute. -/
structure Dispute where
  requestID : List Char
  votes : Nat
  nbResolvedVotes : Int
  isResolved : Bool
  winningValue : Int
  endTime : List Char
  endRevealTime : List Char
deriving DecidableEq

/-- The comma count of Go countVotesInSlice's counting loop. -/
def countCommas : List Char → Nat
  | [] => 0
  | c :: rest => (if c = ',' then 1 else 0) + countCommas rest

/-- Embedding of Go countVotesInSlice: text between the first slice marker
and the next closing bracket; empty gives 0, otherwise one plus the number
of commas (the Contains pre-check of the source coincides with the Index
lookup succeeding). -/
def countVotesInSlice (field : List Char) : Nat :=
  match indexOfSub field sliceTag with
  | none => 0
  | some s =>
    match indexOfChar (field.drop (s + 6)) ']' with
    | none => 0
    | some e =>
      let content := (field.drop (s + 6)).take e
      if content = [] then 0 else 1 + countCommas content

/-- Shared extraction of the text between the struct marker and the last
closing brace of a line, as in both Go record decoders (the code is inlined
twice verbatim in the source).  When the last closing brace sits before the
marker the Go slice expression panics, modelled by the sliceBounds error. -/
def structContent (line : List Char) : Except ParseErr (List Char) :=
  match indexOfSub line structTag with
  | none => Except.error ParseErr.noStructFound
  | some s =>
    match lastIndexOfChar line '\x7d' with
    | none => Except.error ParseErr.structNotClosed
    | some e =>
      if e < s + 7 then Except.error ParseErr.sliceBounds
      else Except.ok ((line.drop (s + 7)).take (e - (s + 7)))

/-- The record constructed by ParseDataRequestFromQuery from the split
fields, in the fixed order of the source. -/
def buildDataRequest (fields : List (List Char)) : DataRequest :=
  ⟨extractStringValue (fields.getD 0 []),
   extractAddressValue (fields.getD 1 []),
   extractTimeValue (fields.getD 2 []),
   extractStringValue (fields.getD 3 []),
   extractBoolValue (fields.getD 4 []),
   extractInt64Value (fields.getD 5 []),
   extractAddressValue (fields.getD 6 []),
   extractInt64Value (fields.getD 7 []),
   extractAddressValue (fields.getD 8 []),
   extractInt64Value (fields.getD 9 []),
   extractTimeValue (fields.getD 10 []),
   extractInt64Value (fields.getD 11 []),
   extractStringValue (fields.getD 12 []),
   extractTimeValue (fields.getD 13 [])⟩

/-- Per-line body of ParseDataRequestFromQuery. -/
def parseDataRequestLine (line : List Char) : Except ParseErr DataRequest :=
  match structContent line with
  | Except.error e => Except.error e
  | Except.ok content =>
    let fields := splitStructFields content
    if fields.length < 14 then Except.error (ParseErr.fieldCountMismatch 14 fields.length)
    else Except.ok (buildDataRequest fields)

/-- The source's loop over the split lines: the first line carrying the data
marker decides the whole result. -/
def parseDataRequestLines : List (List Char) → Except ParseErr DataRequest
  | [] => Except.error ParseErr.noDataField
  | l :: rest =>
    if dataTag.isPrefixOf l then parseDataRequestLine l else parseDataRequestLines rest

/-- Embedding of Go ParseDataRequestFromQuery. -/
def ParseDataRequestFromQuery (output : List Char) : Except ParseErr DataRequest :=
  parseDataRequestLines (output.splitOn '\n')

/-- The record constructed by ParseDisputeFromQuery from the split fields;
field 3 (the Voters avl tree) is intentionally skipped, as in the source. -/
def buildDispute (fields : List (List Char)) : Dispute :=
  ⟨extractStringValue (fields.getD 0 []),
   countVotesInSlice (fields.getD 1 []),
   extractInt64Value (fields.getD 2 []),
   extractBoolValue (fields.getD 4 []),
   extractInt64Value (fields.getD 5 []),
   extractTimeValue (fields.getD 6 []),
   extractTimeValue (fields.getD 7 [])⟩

/-- Per-line body of ParseDisputeFromQuery. -/
def parseDisputeLine (line : List Char) : Except ParseErr Dispute :=
  match structContent line with
  | Except.error e => Except.error e
  | Except.ok content =>
    let fields := splitStructFields content
    if fields.length < 8 then Except.error (ParseErr.fieldCountMismatch 8 fields.length)
    else Except.ok (buildDispute fields)

def parseDisputeLines : List (List Char) → Except ParseErr Dispute
  | [] => Except.error ParseErr.noDataField
  | l :: rest =>
    if dataTag.isPrefixOf l then parseDisputeLine l else parseDisputeLines rest

/-- Embedding of Go ParseDisputeFromQuery. -/
def ParseDisputeFromQuery (output : List Char) : Except ParseErr Dispute :=
  parseDisputeLines (output.splitOn '\n')

/-- Fuel-driven body of Go strings.Split for a nonempty separator; fuel
length+1 always suffices because every step consumes at least one character. -/
def splitOnSubAux : Nat → List Char → List Char → List (List Char)
  | 0, cs, _ => [cs]
  | Nat.succ fuel, cs, sep =>
    match indexOfSub cs sep with
    | none => [cs]
    | some i => cs.take i :: splitOnSubAux fuel (cs.drop (i + sep.length)) sep

/-- Go strings.Split(cs, sep) for a nonempty separator. -/
def splitOnSub (cs sep : List Char) : List (List Char) :=
  splitOnSubAux (cs.length + 1) cs sep

/-- Item clean-up of ParseStringArrayFromQuery: strip parens and spaces and
keep the text between the first pair of quotes, if both quotes exist. -/
def extractArrayItem (item : List Char) : Option (List Char) :=
  let it := trimSpace (trimSuf [')'] (trimPre ['('] item))
  match indexOfChar it '"' with
  | none => none
  | some i =>
    match indexOfChar (it.drop (i + 1)) '"' with
    | none => none
    | some j => some ((it.drop (i + 1)).take j)

/-- Per-line body of ParseStringArrayFromQuery: no slice marker is the empty
array case; otherwise the text up to the next closing bracket is split on
the item separator and each item decoded as a quoted string. -/
def parseStringArrayLine (line : List Char) : Except ParseErr (List (List Char)) :=
  match indexOfSub line sliceTag with
  | none => Except.ok []
  | some s =>
    match indexOfChar (line.drop (s + 6)) ']' with
    | none => Except.error ParseErr.missingClosingBracket
    | some e =>
      let content := (line.drop (s + 6)).take e
      if content = [] then Except.ok []
      else Except.ok ((splitOnSub content "),(".toList).filterMap extractArrayItem)

def parseStringArrayLines : List (List Char) → Except ParseErr (List (List Char))
  | [] => Except.error ParseErr.noDataField
  | l :: rest =>
    if dataTag.isPrefixOf l then parseStringArrayLine l else parseStringArrayLines rest

/-- Embedding of Go ParseStringArrayFromQuery. -/
def ParseStringArrayFromQuery (output : List Char) : Except ParseErr (List (List Char)) :=
  parseStringArrayLines (output.splitOn '\n')

/-- The first line of the output that carries the data marker. -/
def firstDataLine (output : List Char) : Option (List Char) :=
  (output.splitOn '\n').find? (fun l => dataTag.isPrefixOf l)

instance {ε α : Type} [DecidableEq ε] [DecidableEq α] : DecidableEq (Except ε α) := fun a b => by
  cases a <;> cases b
  case error.error x y => exact decidable_of_iff (x = y) (by simp)
  case error.ok x y => exact isFalse (by simp)
  case ok.error x y => exact isFalse (by simp)
  case ok.ok x y => exact decidable_of_iff (x = y) (by simp)

example : ParseStringArrayFromQuery
    "height: 0\ndata: (slice[(\"0000001\" string),(\"0000002\" string)] []string)\n".toList =
    Except.ok ["0000001".toList, "0000002".toList] := by decide

example : ParseDataRequestFromQuery "nope".toList = Except.error ParseErr.noDataField := by
  decide

lemma parseDataRequestLines_eq_find (lines : List (List Char)) :
    parseDataRequestLines lines =
      match lines.find? (fun l => dataTag.isPrefixOf l) with
      | none => Except.error ParseErr.noDataField
      | some l => parseDataRequestLine l := by
  induction lines with
  | nil => rfl
  | cons l rest ih =>
    by_cases h : dataTag.isPrefixOf l
    · simp [parseDataRequestLines, h, List.find?_cons_of_pos]
    · simp only [parseDataRequestLines, h, if_false, Bool.false_eq_true]
      rw [List.find?_cons_of_neg _ (by simp [h]), ih]

lemma parseDisputeLines_eq_find (lines : List (List Char)) :
    parseDisputeLines lines =
      match lines.find? (fun l => dataTag.isPrefixOf l) with
      | none => Except.error ParseErr.noDataField
      | some l => parseDisputeLine l := by
  induction lines with
  | nil => rfl
  | cons l rest ih =>
    by_cases h : dataTag.isPrefixOf l
    · simp [parseDisputeLines, h, List.find?_cons_of_pos]
    · simp only [parseDisputeLines, h, if_false, Bool.false_eq_true]
      rw [List.find?_cons_of_neg _ (by simp [h]), ih]

lemma parseStringArrayLines_eq_find (lines : List (List Char)) :
    parseStringArrayLines lines =
      match lines.find? (fun l => dataTag.isPrefixOf l) with
      | none => Except.error ParseErr.noDataField
      | some l => parseStringArrayLine l := by
  induction lines with
  | nil => rfl
  | cons l rest ih =>
    by_cases h : dataTag.isPrefixOf l
    · simp [parseStringArrayLines, h, List.find?_cons_of_pos]
    · simp only [parseStringArrayLines, h, if_false, Bool.false_eq_true]
      rw [List.find?_cons_of_neg _ (by simp [h]), ih]

/-- Claim C10: the record decoders depend only on the first data-marked line:
two outputs with the same first such line (or both without one) decode to
identical results, so later lines never affect the record or the error. -/
theorem parse_first_data_line_determines (out1 out2 : List Char)
    (h : firstDataLine out1 = firstDataLine out2) :
    ParseDataRequestFromQuery out1 = ParseDataRequestFromQuery out2 ∧
      ParseDisputeFromQuery out1 = ParseDisputeFromQuery out2 := by
  constructor
  · rw [ParseDataRequestFromQuery, ParseDataRequestFromQuery,
      parseDataRequestLines_eq_find, parseDataRequestLines_eq_find]
    rw [show (out1.splitOn '\n').find? (fun l => dataTag.isPrefixOf l) =
        firstDataLine out1 from rfl]
    rw [show (out2.splitOn '\n').find? (fun l => dataTag.isPrefixOf l) =
        firstDataLine out2 from rfl]
    rw [h]
  · rw [ParseDisputeFromQuery, ParseDisputeFromQuery,
      parseDisputeLines_eq_find, parseDisputeLines_eq_find]
    rw [show (out1.splitOn '\n').find? (fun l => dataTag.isPrefixOf l) =
        firstDataLine out1 from rfl]
    rw [show (out2.splitOn '\n').find? (fun l => dataTag.isPrefixOf l) =
        firstDataLine out2 from rfl]
    rw [h]

/-- Concrete instance of claim C10: two outputs sharing the first data line
but with different surroundings decode identically. -/
theorem parse_first_data_line_determines_witness :
    ParseDataRequestFromQuery "x\ndata: struct\x7b(1 int64)\x7d\ntail one".toList =
        ParseDataRequestFromQuery "data: struct\x7b(1 int64)\x7d\nother".toList ∧
      ParseDisputeFromQuery "x\ndata: struct\x7b(1 int64)\x7d\ntail one".toList =
        ParseDisputeFromQuery "data: struct\x7b(1 int64)\x7d\nother".toList :=
  parse_first_data_line_determines _ _ (by decide)

/-- Claim C7: with no data-marked line the decoders fail with the
no-data-field error; with a data line lacking the struct marker they fail
with the no-struct-found error; either way no record is produced. -/
theorem parse_record_not_found :
    (∀ out : List Char, firstDataLine out = none →
      ParseDataRequestFromQuery out = Except.error ParseErr.noDataField ∧
        ParseDisputeFromQuery out = Except.error ParseErr.noDataField) ∧
    (∀ out l : List Char, firstDataLine out = some l →
      indexOfSub l structTag = none →
      ParseDataRequestFromQuery out = Except.error ParseErr.noStructFound ∧
        ParseDisputeFromQuery out = Except.error ParseErr.noStructFound) := by
  constructor
  · intro out h
    constructor
    · rw [ParseDataRequestFromQuery, parseDataRequestLines_eq_find]
      rw [show (out.splitOn '\n').find? (fun l => dataTag.isPrefixOf l) =
          firstDataLine out from rfl, h]
    · rw [ParseDisputeFromQuery, parseDisputeLines_eq_find]
      rw [show (out.splitOn '\n').find? (fun l => dataTag.isPrefixOf l) =
          firstDataLine out from rfl, h]
  · intro out l h hst
    constructor
    · rw [ParseDataRequestFromQuery, parseDataRequestLines_eq_find]
      rw [show (out.splitOn '\n').find? (fun l => dataTag.isPrefixOf l) =
          firstDataLine out from rfl, h]
      simp [parseDataRequestLine, structContent, hst]
    · rw [ParseDisputeFromQuery, parseDisputeLines_eq_find]
      rw [show (out.splitOn '\n').find? (fun l => dataTag.isPrefixOf l) =
          firstDataLine out from rfl, h]
      simp [parseDisputeLine, structContent, hst]

/-- Concrete instances of claim C7: an output without any data line, and one
whose data line has no struct marker. -/
theorem parse_record_not_found_witness :
    (ParseDataRequestFromQuery "height: 0\nno marker here".toList =
        Except.error ParseErr.noDataField ∧
      ParseDisputeFromQuery "height: 0\nno marker here".toList =
        Except.error ParseErr.noDataField) ∧
    (ParseDataRequestFromQuery "data: (1 int64)".toList =
        Except.error ParseErr.noStructFound ∧
      ParseDisputeFromQuery "data: (1 int64)".toList =
        Except.error ParseErr.noStructFound) :=
  ⟨parse_record_not_found.1 _ (by decide),
   parse_record_not_found.2 _ "data: (1 int64)".toList (by decide) (by decide)⟩

/-- A fifteen-field record line: one more field than the expected arity. -/
def out15 : List Char :=
  ("data: struct\x7b(1 int64),(2 int64),(3 int64),(4 int64),(5 int64),(6 int64)," ++
   "(7 int64),(8 int64),(9 int64),(10 int64),(11 int64),(12 int64),(13 int64)," ++
   "(14 int64),(15 int64)\x7d").toList

/-- The struct body of out15. -/
def content15 : List Char :=
  ("(1 int64),(2 int64),(3 int64),(4 int64),(5 int64),(6 int64)," ++
   "(7 int64),(8 int64),(9 int64),(10 int64),(11 int64),(12 int64),(13 int64)," ++
   "(14 int64),(15 int64)").toList

/-- Counterexample to claim C2 as stated: a record body splitting into 15
fields — a count different from 14 — is decoded without any error, because
the source only rejects counts strictly below the expected arity. -/
theorem parse_fieldCount_not_exact_counterexample :
    (splitStructFields content15).length = 15 ∧
      (ParseDataRequestFromQuery out15).isOk = true := by decide

/-- Claim C2 (amended): on any output whose first data line yields a struct
body, the decoders return the field-count error exactly when the split field
count is below the expected arity (14 for requests, 8 for disputes); an
error excludes any record by the shape of the result. -/
theorem parse_fieldCountMismatch_iff (out l content : List Char)
    (h1 : firstDataLine out = some l)
    (h2 : structContent l = Except.ok content) :
    (ParseDataRequestFromQuery out =
        Except.error (ParseErr.fieldCountMismatch 14 (splitStructFields content).length) ↔
      (splitStructFields content).length < 14) ∧
    (ParseDisputeFromQuery out =
        Except.error (ParseErr.fieldCountMismatch 8 (splitStructFields content).length) ↔
      (splitStructFields content).length < 8) := by
  constructor
  · rw [ParseDataRequestFromQuery, parseDataRequestLines_eq_find]
    rw [show (out.splitOn '\n').find? (fun l => dataTag.isPrefixOf l) =
        firstDataLine out from rfl, h1]
    unfold parseDataRequestLine
    dsimp only
    rw [h2]
    by_cases hlt : (splitStructFields content).length < 14
    · simp [hlt]
    · simp [hlt]
  · rw [ParseDisputeFromQuery, parseDisputeLines_eq_find]
    rw [show (out.splitOn '\n').find? (fun l => dataTag.isPrefixOf l) =
        firstDataLine out from rfl, h1]
    unfold parseDisputeLine
    dsimp only
    rw [h2]
    by_cases hlt : (splitStructFields content).length < 8
    · simp [hlt]
    · simp [hlt]

/-- Concrete instance of the amended claim C2 at a one-field record line. -/
theorem parse_fieldCountMismatch_iff_witness :
    (ParseDataRequestFromQuery "data: struct\x7b(1 int64)\x7d".toList =
        Except.error (ParseErr.fieldCountMismatch 14
          (splitStructFields "(1 int64)".toList).length) ↔
      (splitStructFields "(1 int64)".toList).length < 14) ∧
    (ParseDisputeFromQuery "data: struct\x7b(1 int64)\x7d".toList =
        Except.error (ParseErr.fieldCountMismatch 8
          (splitStructFields "(1 int64)".toList).length) ↔
      (splitStructFields "(1 int64)".toList).length < 8) :=
  parse_fieldCountMismatch_iff "data: struct\x7b(1 int64)\x7d".toList
    "data: struct\x7b(1 int64)\x7d".toList "(1 int64)".toList (by decide) (by decide)

lemma countCommas_eq_count (cs : List Char) : countCommas cs = cs.count ',' := by
  induction cs with
  | nil => rfl
  | cons c rest ih =>
    by_cases h : c = ','
    · simp [countCommas, h, ih, List.count_cons]
      omega
    · simp [countCommas, h, ih, List.count_cons]

lemma indexOfChar_append_self (xs ys : List Char) (c : Char) (h : c ∉ xs) :
    indexOfChar (xs ++ c :: ys) c = some xs.length := by
  induction xs with
  | nil => simp [indexOfChar]
  | cons x t ih =>
    have hx : ¬ x = c := by intro hx; exact h (by simp [hx])
    have ht : c ∉ t := fun hm => h (by simp [hm])
    simp [indexOfChar, hx, ih ht]

lemma drop_after_tag (pre z : List Char) :
    ((pre ++ sliceTag) ++ z).drop (pre.length + 6) = z := by
  have hlen : (pre ++ sliceTag).length = pre.length + 6 := by
    simp [sliceTag]
  rw [← hlen, List.drop_left]

/-- Counterexample to claim C5 as stated: in a vote list whose single item
contains a nested comma, the code counts 2 votes, while the depth-aware
tokenizer delimits exactly one top-level item. -/
theorem countVotesInSlice_nested_comma_counterexample :
    countVotesInSlice "(slice[ref(a,b)] []Vote)".toList = 2 ∧
      splitStructFields "ref(a,b)".toList = ["ref(a,b)".toList] := by decide

/-- Claim C5 (amended): the vote count is one plus the number of commas at
any depth in the text between the slice tag and the first closing bracket
(zero when that text is empty); commas nested inside items are counted too,
because the counting loop is not depth-aware. -/
theorem countVotesInSlice_counts_all_commas (pre content suf : List Char)
    (h1 : indexOfSub (pre ++ sliceTag ++ content ++ ']' :: suf) sliceTag = some pre.length)
    (h2 : ']' ∉ content) :
    countVotesInSlice (pre ++ sliceTag ++ content ++ ']' :: suf) =
      if content = [] then 0 else content.count ',' + 1 := by
  unfold countVotesInSlice
  rw [h1]
  dsimp only
  have hd : (pre ++ sliceTag ++ content ++ ']' :: suf).drop (pre.length + 6) =
      content ++ ']' :: suf := by
    rw [show pre ++ sliceTag ++ content ++ ']' :: suf =
        (pre ++ sliceTag) ++ (content ++ ']' :: suf) from by simp [List.append_assoc]]
    exact drop_after_tag pre _
  rw [hd]
  rw [indexOfChar_append_self content suf ']' h2]
  dsimp only
  rw [List.take_left]
  by_cases hc : content = []
  · simp [hc]
  · simp only [hc, if_false]
    rw [countCommas_eq_count]
    omega

/-- Concrete instance of the amended claim C5: two items, one nested comma,
count 3. -/
theorem countVotesInSlice_counts_all_commas_witness :
    countVotesInSlice ("(".toList ++ sliceTag ++ "ref(a,b),ref(c)".toList ++
        ']' :: " []Vote)".toList) =
      if "ref(a,b),ref(c)".toList = ([] : List Char) then 0
      else ("ref(a,b),ref(c)".toList).count ',' + 1 :=
  countVotesInSlice_counts_all_commas "(".toList "ref(a,b),ref(c)".toList
    " []Vote)".toList (by decide) (by decide)

/-- Claim C6: an empty list literal (nothing between the slice tag and its
closing bracket) yields a zero vote count from countVotesInSlice, and an
empty array without error from ParseStringArrayFromQuery. -/
theorem empty_list_literal_gives_zero :
    (∀ pre suf : List Char,
      indexOfSub (pre ++ sliceTag ++ ']' :: suf) sliceTag = some pre.length →
      countVotesInSlice (pre ++ sliceTag ++ ']' :: suf) = 0) ∧
    (∀ out l pre suf : List Char,
      firstDataLine out = some l →
      l = pre ++ sliceTag ++ ']' :: suf →
      indexOfSub l sliceTag = some pre.length →
      ParseStringArrayFromQuery out = Except.ok []) := by
  constructor
  · intro pre suf h
    unfold countVotesInSlice
    rw [h]
    dsimp only
    have hd : (pre ++ sliceTag ++ ']' :: suf).drop (pre.length + 6) = ']' :: suf := by
      rw [show pre ++ sliceTag ++ ']' :: suf = (pre ++ sliceTag) ++ (']' :: suf) from by
        simp [List.append_assoc]]
      exact drop_after_tag pre _
    rw [hd]
    rw [show indexOfChar (']' :: suf) ']' = some 0 from by simp [indexOfChar]]
    simp
  · intro out l pre suf h1 hl h3
    rw [ParseStringArrayFromQuery, parseStringArrayLines_eq_find]
    rw [show (out.splitOn '\n').find? (fun l => dataTag.isPrefixOf l) =
        firstDataLine out from rfl, h1]
    dsimp only
    unfold parseStringArrayLine
    rw [h3]
    dsimp only
    subst hl
    have hd : (pre ++ sliceTag ++ ']' :: suf).drop (pre.length + 6) = ']' :: suf := by
      rw [show pre ++ sliceTag ++ ']' :: suf = (pre ++ sliceTag) ++ (']' :: suf) from by
        simp [List.append_assoc]]
      exact drop_after_tag pre _
    rw [hd]
    rw [show indexOfChar (']' :: suf) ']' = some 0 from by simp [indexOfChar]]
    simp

/-- Concrete instance of claim C6: the literal slice[] gives count 0 and the
empty decoded array. -/
theorem empty_list_literal_gives_zero_witness :
    countVotesInSlice ("(".toList ++ sliceTag ++ ']' :: " []Vote)".toList) = 0 ∧
      ParseStringArrayFromQuery "data: (slice[] []string)".toList = Except.ok [] :=
  ⟨empty_list_literal_gives_zero.1 "(".toList " []Vote)".toList (by decide),
   empty_list_literal_gives_zero.2 "data: (slice[] []string)".toList
     ("data: (".toList ++ sliceTag ++ ']' :: " []string)".toList) "data: (".toList
     " []string)".toList (by decide) (by decide) (by decide)⟩

lemma takeWhile_eq_nil_of_false {p : Char → Bool} (l : List Char)
    (h : ∀ c ∈ l, p c = false) : l.takeWhile p = [] := by
  cases l with
  | nil => rfl
  | cons x t => simp [List.takeWhile_cons, h x (by simp)]

lemma takeWhile_eq_self_of_true {p : Char → Bool} (l : List Char)
    (h : ∀ c ∈ l, p c = true) : l.takeWhile p = l := by
  induction l with
  | nil => rfl
  | cons x t ih =>
    simp [List.takeWhile_cons, h x (by simp), ih (fun c hc => h c (by simp [hc]))]

lemma mem_trimSpace {c : Char} {cs : List Char} (h : c ∈ trimSpace cs) : c ∈ cs := by
  unfold trimSpace at h
  have h1 : c ∈ (cs.dropWhile goIsSpace).reverse.dropWhile goIsSpace := by
    simpa using h
  have h2 : c ∈ (cs.dropWhile goIsSpace).reverse :=
    (List.dropWhile_sublist _).subset h1
  have h3 : c ∈ cs.dropWhile goIsSpace := by simpa using h2
  exact (List.dropWhile_sublist _).subset h3

lemma mem_trimPre {c : Char} {pre cs : List Char} (h : c ∈ trimPre pre cs) : c ∈ cs := by
  unfold trimPre at h
  split at h
  · exact (List.drop_sublist _ _).subset h
  · exact h

lemma goSscanfInt_zero_of_no_digits (cs : List Char)
    (h : ∀ c ∈ cs, isDigitChar c = false) : goSscanfInt cs = 0 := by
  unfold goSscanfInt
  by_cases hh : cs.head? = some '-'
  · rw [if_pos hh]
    rw [takeWhile_eq_nil_of_false _ (fun c hc => h c (List.mem_of_mem_tail hc))]
    simp
  · rw [if_neg hh]
    rw [takeWhile_eq_nil_of_false _ h]
    simp

lemma goSscanfInt_digits (ds : List Char) (hne : ds ≠ [])
    (hdig : ∀ c ∈ ds, isDigitChar c = true)
    (hr : (natOfDigits ds : Int) ≤ int64Max) : goSscanfInt ds = natOfDigits ds := by
  unfold goSscanfInt
  have hh : ¬ ds.head? = some '-' := by
    cases ds with
    | nil => exact absurd rfl hne
    | cons c t =>
      intro heq
      have hc : c = '-' := by simpa using heq
      have := hdig c (by simp)
      rw [hc] at this
      exact absurd this (by decide)
  rw [if_neg hh, takeWhile_eq_self_of_true _ hdig, if_neg hne, if_neg (by omega)]

lemma goSscanfInt_neg_digits (ds : List Char) (hne : ds ≠ [])
    (hdig : ∀ c ∈ ds, isDigitChar c = true)
    (hr : int64Min ≤ -(natOfDigits ds : Int)) :
    goSscanfInt ('-' :: ds) = -(natOfDigits ds : Int) := by
  unfold goSscanfInt
  rw [if_pos (by simp)]
  simp only [List.tail_cons]
  rw [takeWhile_eq_self_of_true _ hdig, if_neg hne, if_neg (by omega)]

/-- Claim C8 (amended): extractInt64Value trims whitespace and one leading
parenthesis, takes the maximal leading run of digit/minus characters, and
ignores the rest of the field; when that run is a well-formed int64 literal
(optional minus, then digits, value in int64 range) the denoted integer is
returned, and for a field containing no digit at all the result is 0 without
failure. -/
theorem extractInt64Value_runs :
    (∀ field : List Char, (∀ c ∈ field, isDigitChar c = false) →
      extractInt64Value field = 0) ∧
    (∀ field ds : List Char,
      (trimPre ['('] (trimSpace field)).takeWhile isNumRunChar = ds →
      ds ≠ [] → (∀ c ∈ ds, isDigitChar c = true) →
      (natOfDigits ds : Int) ≤ int64Max →
      extractInt64Value field = (natOfDigits ds : Int)) ∧
    (∀ field ds : List Char,
      (trimPre ['('] (trimSpace field)).takeWhile isNumRunChar = '-' :: ds →
      ds ≠ [] → (∀ c ∈ ds, isDigitChar c = true) →
      int64Min ≤ -(natOfDigits ds : Int) →
      extractInt64Value field = -(natOfDigits ds : Int)) := by
  refine ⟨?_, ?_, ?_⟩
  · intro field h
    unfold extractInt64Value
    apply goSscanfInt_zero_of_no_digits
    intro c hc
    exact h c (mem_trimSpace (mem_trimPre ((List.takeWhile_sublist _).subset hc)))
  · intro field ds hrun hne hdig hr
    unfold extractInt64Value
    simp only []
    rw [hrun]
    exact goSscanfInt_digits ds hne hdig hr
  · intro field ds hrun hne hdig hr
    unfold extractInt64Value
    simp only []
    rw [hrun]
    exact goSscanfInt_neg_digits ds hne hdig hr

/-- Concrete instances of claim C8: a positive literal, a negative literal,
and a digit-free field. -/
theorem extractInt64Value_runs_witness :
    extractInt64Value "(42 int64)".toList = 42 ∧
      extractInt64Value "(-7 int64)".toList = -7 ∧
      extractInt64Value "(no digits)".toList = 0 :=
  ⟨by rw [extractInt64Value_runs.2.1 "(42 int64)".toList "42".toList
      (by decide) (by decide) (by decide) (by decide)]; decide,
   by rw [extractInt64Value_runs.2.2 "(-7 int64)".toList "7".toList
      (by decide) (by decide) (by decide) (by decide)]; decide,
   extractInt64Value_runs.1 "(no digits)".toList (by decide)⟩

/-- Counterexample to claim C8 as stated: for a leading run denoting 2^63,
one past the largest int64, the scanner reports a range error and the
zero-initialised target is returned, not the denoted integer. -/
theorem extractInt64Value_overflow_counterexample :
    (trimPre ['('] (trimSpace "(9223372036854775808 int64)".toList)).takeWhile
        isNumRunChar = "9223372036854775808".toList ∧
      (natOfDigits "9223372036854775808".toList : Int) = 9223372036854775808 ∧
      extractInt64Value "(9223372036854775808 int64)".toList = 0 := by decide

/-- A stored vote commitment record (the Go struct VoteData of
internal/gnokey/executor.go). -/
structure VoteData where
  requestID : List Char
  value : List Char
  salt : List Char
  hash : List Char
  timestamp : List Char
deriving DecidableEq

/-- The local vote store: the slice of the file system the two store
operations touch, as a map from file path to the decoded stored record.
Go's encoding/json round-trips the string fields losslessly (model strings
are sequences of Unicode scalar values), so file contents are modelled at
the record level. -/
def VoteStore : Type := List Char → Option VoteData

def emptyVoteStore : VoteStore := fun _ => none

/-- The file path both store operations use:
home + "/.goo/votes/" + requestID + ".json". -/
def votePath (home requestID : List Char) : List Char :=
  home ++ "/.goo/votes/".toList ++ requestID ++ ".json".toList

inductive StoreErr where
  | readFailed
  | incomplete
deriving DecidableEq

/-- Embedding of Go SaveVoteLocally: marshals the record (request id, value,
salt, hash, timestamp) and writes it at the per-request path, overwriting
any previous file for the same id. -/
def SaveVoteLocally (fs : VoteStore) (home requestID value salt hash now : List Char) :
    VoteStore :=
  fun p => if p = votePath home requestID
    then some ⟨requestID, value, salt, hash, now⟩ else fs p

/-- Embedding of Go LoadVoteLocally: reads the per-request file (readFailed
when it does not exist), rejects records whose value or salt is empty as
incomplete, and returns the (value, salt) pair. -/
def LoadVoteLocally (fs : VoteStore) (home requestID : List Char) :
    Except StoreErr (List Char × List Char) :=
  match fs (votePath home requestID) with
  | none => Except.error StoreErr.readFailed
  | some vd =>
    if vd.value = [] ∨ vd.salt = [] then Except.error StoreErr.incomplete
    else Except.ok (vd.value, vd.salt)

/-- Counterexample to claim C3 as stated: the empty value contains no NUL,
yet saving it and loading it back fails with the incomplete-data error
instead of returning the saved pair, because the loader rejects empty
values and salts. -/
theorem save_load_empty_value_counterexample :
    LoadVoteLocally
        (SaveVoteLocally emptyVoteStore [] "req1".toList [] "salty".toList
          "h".toList "t".toList) [] "req1".toList =
      Except.error StoreErr.incomplete := by decide

/-- Claim C3 (amended): for nonempty value and salt containing no embedded
NUL, saving and then loading the same request id returns exactly the saved
(value, salt) pair, and a later save for the same id overwrites the earlier
one — the load then returns the second pair (last write wins). -/
theorem save_load_roundtrip (fs : VoteStore)
    (home requestID value salt hash now value2 salt2 hash2 now2 : List Char)
    (hv : value ≠ []) (hs : salt ≠ [])
    (hv2 : value2 ≠ []) (hs2 : salt2 ≠ [])
    (_hnv : '\x00' ∉ value) (_hns : '\x00' ∉ salt)
    (_hnv2 : '\x00' ∉ value2) (_hns2 : '\x00' ∉ salt2) :
    LoadVoteLocally (SaveVoteLocally fs home requestID value salt hash now)
        home requestID = Except.ok (value, salt) ∧
    LoadVoteLocally
        (SaveVoteLocally (SaveVoteLocally fs home requestID value salt hash now)
          home requestID value2 salt2 hash2 now2)
        home requestID = Except.ok (value2, salt2) := by
  constructor
  · unfold LoadVoteLocally SaveVoteLocally
    simp [hv, hs]
  · unfold LoadVoteLocally SaveVoteLocally
    simp [hv2, hs2]

/-- Concrete instance of the amended claim C3. -/
theorem save_load_roundtrip_witness :
    LoadVoteLocally
        (SaveVoteLocally emptyVoteStore "/home/u".toList "0001".toList
          "3500".toList "abcd".toList "h1".toList "t1".toList)
        "/home/u".toList "0001".toList = Except.ok ("3500".toList, "abcd".toList) ∧
    LoadVoteLocally
        (SaveVoteLocally
          (SaveVoteLocally emptyVoteStore "/home/u".toList "0001".toList
            "3500".toList "abcd".toList "h1".toList "t1".toList)
          "/home/u".toList "0001".toList "4200".toList "efgh".toList
          "h2".toList "t2".toList)
        "/home/u".toList "0001".toList = Except.ok ("4200".toList, "efgh".toList) :=
  save_load_roundtrip emptyVoteStore "/home/u".toList "0001".toList "3500".toList
    "abcd".toList "h1".toList "t1".toList "4200".toList "efgh".toList "h2".toList
    "t2".toList (by decide) (by decide) (by decide) (by decide) (by decide)
    (by decide) (by decide) (by decide)

/-- Modelled from the spec: GenerateVoteHash and its verification companion
are not under src/ (only their call sites in the vote commit command are).
Per the spec, commit(value, salt) is a deterministic cryptographic digest of
the plaintext value concatenated with the salt — value first, no separator.
The digest is abstracted as a function parameter; the cryptographic
idealisation (no collisions) is the injectivity hypothesis of the claim
theorem. -/
def commit (digest : List Char → List Char) (value salt : List Char) : List Char :=
  digest (value ++ salt)

/-- Modelled from the spec: verify(hash, value, salt) recomputes the
commitment and compares. -/
def verify (digest : List Char → List Char) (hash value salt : List Char) : Bool :=
  decide (hash = commit digest value salt)

/-- Claim C4: for an injective (idealised collision-free) digest,
verify(commit(v, s), v, s) holds; changing the salt alone or the value alone
makes verification fail. -/
theorem commit_verify_correct (digest : List Char → List Char)
    (hinj : Function.Injective digest) (v s v2 s2 : List Char)
    (hs2 : s2 ≠ s) (hv2 : v2 ≠ v) :
    verify digest (commit digest v s) v s = true ∧
    verify digest (commit digest v s) v s2 = false ∧
    verify digest (commit digest v s) v2 s = false := by
  refine ⟨by simp [verify], ?_, ?_⟩
  · unfold verify commit
    simp only [decide_eq_false_iff_not]
    intro heq
    exact hs2 (List.append_cancel_left (hinj heq)).symm
  · unfold verify commit
    simp only [decide_eq_false_iff_not]
    intro heq
    exact hv2 (List.append_cancel_right (hinj heq)).symm

/-- Concrete instance of claim C4 at the identity digest (injective). -/
theorem commit_verify_correct_witness :
    verify (fun l => l) (commit (fun l => l) "3500".toList "salt1".toList)
        "3500".toList "salt1".toList = true ∧
    verify (fun l => l) (commit (fun l => l) "3500".toList "salt1".toList)
        "3500".toList "salt2".toList = false ∧
    verify (fun l => l) (commit (fun l => l) "3500".toList "salt1".toList)
        "9999".toList "salt1".toList = false :=
  commit_verify_correct (fun l => l) (fun _ _ h => h) "3500".toList "salt1".toList
    "9999".toList "salt2".toList (by decide) (by decide)
